import Mathlib

/-!
Verification development for the Voxscribe room-session engine.

Shallow embedding of:
* `TextTranslator.translate` (translator.py, quoted in SPEECH_TO_TEXT_IMPLEMENTATION.md
  lines 136-172): caching translation with language-code normalisation and
  per-call error fallback;
* the per-unit body of `websocket_endpoint` (main.py, quoted in
  SPEECH_TO_TEXT_IMPLEMENTATION.md lines 199-301): abort checks, distinct
  target-language collection, the translation loop, per-participant message
  building and room-wide broadcast;
* the client-side audio utilities `downsampleBuffer` and `bufferToWav` and the
  WebSocket lifecycle handlers of ConvoRoom.tsx.

External engines (speech recognition, Google translation) are modelled as
oracle parameters: the recognition result is an input of the unit handler, the
translation engine is a function returning `Option String` (`none` models a
raised exception at the call site).
-/

namespace Voxscribe

/-- A room participant as consumed by the unit handler
(`RoomService.get_room_participants` rows; only the fields the handler reads). -/
structure Participant where
  user_id : Nat
  translate_to_language : String
deriving DecidableEq

/-- Result of `whisper_engine.transcribe` (whisper_engine.py): text, detected
language, confidence.  Confidence is embedded as a rational. -/
structure TranscriptionResult where
  text : String
  language : String
  confidence : Rat
deriving DecidableEq

/-- `TextTranslator.language_mapping` (translator.py line 139-141). -/
def language_mapping (l : String) : String :=
  if l = "zh-cn" then "zh-CN"
  else if l = "zh-tw" then "zh-TW"
  else if l = "zh" then "zh-CN"
  else l

/-- The translation cache `self.cache` (translator.py line 143): a dict from
string keys to translated strings, embedded as an association list (newest
binding first, which matches dict lookup because a key is inserted at most
once while absent). -/
abbrev TranslationCache := List (String × String)

/-- `cache_key = f"{text}:{src_lang}:{dest_lang}"` (translator.py line 155). -/
def cacheKey (text src_lang dest_lang : String) : String :=
  text ++ ":" ++ src_lang ++ ":" ++ dest_lang

/-- The external translation engine boundary
(`GoogleTranslator(source=..., target=...).translate(text)`): `none` models a
raised exception. -/
abbrev TranslateOracle := String → String → String → Option String

/-- Outcome of one `TextTranslator.translate` call: returned text, cache state
after the call, and how many external engine calls were issued (0 or 1). -/
structure TranslateOutcome where
  result : String
  cache : TranslationCache
  externalCalls : Nat
deriving DecidableEq

/-- `TextTranslator.translate` (translator.py lines 145-169), with the
GoogleTranslator call abstracted into the oracle `g`.  The early return for
empty text or equal languages, the language-code normalisation, the cache
lookup, the caching of a successful result, and the catch-all returning the
original text on failure are all taken from the source. -/
def translate (g : TranslateOracle) (cache : TranslationCache)
    (text src_lang dest_lang : String) : TranslateOutcome :=
  if text = "" ∨ src_lang = dest_lang then
    { result := text, cache := cache, externalCalls := 0 }
  else
    let src := language_mapping src_lang
    let dest := language_mapping dest_lang
    let key := cacheKey text src dest
    match cache.lookup key with
    | some v => { result := v, cache := cache, externalCalls := 0 }
    | none =>
      match g text src dest with
      | some translated =>
          { result := translated, cache := (key, translated) :: cache
            externalCalls := 1 }
      | none =>
          { result := text, cache := cache, externalCalls := 1 }

/-- Python `str.strip()`: remove leading and trailing whitespace (structural
recursion over the character list, so that concrete runs reduce). -/
def pyStrip (s : String) : String :=
  String.mk (((s.data.dropWhile Char.isWhitespace).reverse.dropWhile
    Char.isWhitespace).reverse)

/-- The fixed confidence floor of the unit handler: `confidence < 0.3`
(main.py line 215).  `mkRat 3 10` is the rational 0.3. -/
def confidenceFloor : Rat := mkRat 3 10

/-- The `target_languages` set of the unit handler (main.py lines 232-238):
every participant's `translate_to_language` that differs from the detected
language, deduplicated (a Python `set`; embedded as `List.dedup`, which is
order-insensitive in all the properties proved below). -/
def collectTargets (participants : List Participant) (detected : String) :
    List String :=
  ((participants.map (·.translate_to_language)).filter (fun t => t ≠ detected)).dedup

/-- The translation loop of the unit handler (main.py lines 240-261): one
`text_translator.translate` call per collected target language, accumulating
the `translations` dict (assoc list), the cache state and the number of
external engine calls. -/
def runTranslations (g : TranslateOracle) (text detected : String) :
    TranslationCache → List String → List (String × String) × TranslationCache × Nat
  | cache, [] => ([], cache, 0)
  | cache, t :: ts =>
    let o := translate g cache text detected t
    let rest := runTranslations g text detected o.cache ts
    ((t, o.result) :: rest.1, rest.2.1, o.externalCalls + rest.2.2)

/-- The `broadcast_message` JSON payload (main.py lines 289-299; the fields the
claims are about). -/
structure BroadcastMessage where
  speaker : String
  original_text : String
  original_language : String
  translated_text : Option String
  target_language : String
  confidence : Rat
deriving DecidableEq

/-- Per-participant message construction (main.py lines 264-299): no
translated text when the participant's target equals the detected language,
otherwise `translations.get(target_lang, original_text)`.  The speaker's
identity plays no role here. -/
def buildMessage (speakerName original_text detected_language : String)
    (confidence : Rat) (translations : List (String × String))
    (p : Participant) : BroadcastMessage :=
  let target_lang := p.translate_to_language
  if target_lang = detected_language then
    { speaker := speakerName, original_text := original_text
      original_language := detected_language, translated_text := none
      target_language := target_lang, confidence := confidence }
  else
    { speaker := speakerName, original_text := original_text
      original_language := detected_language
      translated_text := some ((translations.lookup target_lang).getD original_text)
      target_language := target_lang, confidence := confidence }

/-- `manager.broadcast(json.dumps(broadcast_message), room_id)`: the connection
manager sends the given message to every open socket of the room. -/
def manager_broadcast (conns : List Nat) (m : BroadcastMessage) :
    List (Nat × BroadcastMessage) :=
  conns.map (fun c => (c, m))

/-- The dispatch loop (main.py lines 264-301): for each participant one message
is built and then broadcast to all sockets of the room. -/
def fanOut (conns : List Nat) : List BroadcastMessage → List (Nat × BroadcastMessage)
  | [] => []
  | m :: ms => manager_broadcast conns m ++ fanOut conns ms

/-- Observable effects of processing one audio unit: the
`create_transcription` call (speaker id, text, language, confidence), the
`add_translation` calls / `translations` dict, the per-participant
`create_message` payloads, the `(socket, message)` pairs actually dispatched,
the number of external translation-engine calls, and the cache state left
behind. -/
structure UnitEffects where
  transcriptionSaved : Option (Nat × String × String × Rat)
  translationsSaved : List (String × String)
  messages : List BroadcastMessage
  sends : List (Nat × BroadcastMessage)
  externalCalls : Nat
  cacheAfter : TranslationCache
deriving DecidableEq

/-- One iteration of the `websocket_endpoint` receive loop for a binary audio
unit (main.py lines 199-301): abort (`continue`) when decoding yielded an
empty sample array, when the recognised text is empty after trimming, or when
the confidence is below the fixed floor 0.3; otherwise persist the
transcription, translate once per distinct target language, build one message
per participant and broadcast each of them to every socket in the room. -/
def handleUnit (g : TranslateOracle) (cache : TranslationCache)
    (conns : List Nat) (participants : List Participant)
    (speaker_id : Nat) (speakerName : String)
    (samples : List Rat) (tr : TranscriptionResult) : UnitEffects :=
  if samples = [] then
    { transcriptionSaved := none, translationsSaved := [], messages := []
      sends := [], externalCalls := 0, cacheAfter := cache }
  else
    let original_text := tr.text
    let detected_language := tr.language
    let confidence := tr.confidence
    if pyStrip original_text = "" ∨ confidence < confidenceFloor then
      { transcriptionSaved := none, translationsSaved := [], messages := []
        sends := [], externalCalls := 0, cacheAfter := cache }
    else
      let target_languages := collectTargets participants detected_language
      let tres := runTranslations g original_text detected_language cache target_languages
      let translations := tres.1
      let messages := participants.map
        (buildMessage speakerName original_text detected_language confidence translations)
      { transcriptionSaved := some (speaker_id, original_text, detected_language, confidence)
        translationsSaved := translations
        messages := messages
        sends := fanOut conns messages
        externalCalls := tres.2.2
        cacheAfter := tres.2.1 }

/-- A concrete translation engine used by witnesses: always succeeds,
prefixing the target language. -/
def demoOracle : TranslateOracle := fun t _ d => some (d ++ ":" ++ t)

/-- A concrete translation engine used by witnesses: raises (returns `none`)
exactly for target language "fr". -/
def oracleFailFr : TranslateOracle := fun t _ d =>
  if d = "fr" then none else some (d ++ ":" ++ t)

/-! ## Session Transport protocol state machine -/

/-- Inbound messages of the session transport wire protocol (spec section 4.2;
the client emits exactly these shapes in ConvoRoom.tsx: `join` lines 221-226,
`leave` lines 349-352, `language_change` lines 369-373, `speaking_status`
lines 402-407 and 460-465, `end_session` lines 477-480; the binary audio unit
line 426). -/
inductive WsInbound where
  | join (user_id : Nat) (user_name : String) (language : String)
  | leave (user_id : Nat)
  | language_change (user_id : Nat) (translate_to : String)
  | speaking_status (user_id : Nat) (is_speaking : Bool)
  | end_session (user_id : Nat)
  | audio (data : List Nat)
deriving DecidableEq

/-- Whether an inbound message is a `join`. -/
def WsInbound.isJoin : WsInbound → Bool
  | .join _ _ _ => true
  | _ => false

/-- Server-side effects observable at the transport boundary. -/
inductive SrvEffect where
  | broadcastEvent (kind : String)
  | processAudio
  | closeChannel (code : Nat)
deriving DecidableEq

/-- The WebSocket close code for a protocol violation (`PolicyViolation`). -/
def policyViolationCode : Nat := 1008

/-- Server-side session state for one transport connection. -/
inductive SrvState where
  | waitingJoin
  | active (roster : List (Nat × String × String))
  | closed (code : Nat)
deriving DecidableEq

/-- Modelled from the spec: the server half of the Session Transport protocol
state machine.  The repository's server entry point (main.py with the typed
message dispatch) is not among the provided sources — the implementation
guide's endpoint shows only the audio loop — so the transition rules are taken
from spec section 4.2: `join` must be the first inbound message; any message
before `join` is rejected and the channel is closed (`PolicyViolation`); in the
joined state audio units are processed and transcription/presence events are
broadcast. -/
def srvStep : SrvState → WsInbound → SrvState × List SrvEffect
  | .waitingJoin, .join uid name lang =>
      (.active [(uid, name, lang)],
       [.broadcastEvent "participants_list", .broadcastEvent "participant_joined"])
  | .waitingJoin, _ =>
      (.closed policyViolationCode, [.closeChannel policyViolationCode])
  | .active r, .join uid name lang =>
      (.active ((uid, name, lang) :: r.filter (fun e => e.1 ≠ uid)),
       [.broadcastEvent "participant_joined"])
  | .active r, .leave uid =>
      (.active (r.filter (fun e => e.1 ≠ uid)), [.broadcastEvent "participant_left"])
  | .active r, .language_change _ _ => (.active r, [])
  | .active r, .speaking_status _ _ => (.active r, [.broadcastEvent "speaking_status"])
  | .active r, .end_session _ => (.active r, [.broadcastEvent "session_ended"])
  | .active r, .audio _ =>
      (.active r, [.processAudio, .broadcastEvent "transcription"])
  | .closed c, _ => (.closed c, [])

/-- A run of the server state machine over a list of inbound messages,
accumulating the emitted effects. -/
def srvRun : SrvState → List WsInbound → SrvState × List SrvEffect
  | s, [] => (s, [])
  | s, m :: ms =>
    let step := srvStep s m
    let rest := srvRun step.1 ms
    (rest.1, step.2 ++ rest.2)

/-! ## Client-side WebSocket lifecycle (ConvoRoom.tsx) -/

/-- The authenticated user as stored client-side (`currentUser`). -/
structure ClientUser where
  id : Nat
  name : String
  main_language : String
deriving DecidableEq

/-- The fixed reconnect backoff of the client supervisor:
`setTimeout(..., 3000)` in ConvoRoom.tsx line 333-337. -/
def reconnectDelayMs : Nat := 3000

/-- Messages the client `onopen` handler sends (ConvoRoom.tsx lines 209-228):
the join message, immediately, as the first and only message sent on a newly
opened transport. -/
def onOpenSends (u : ClientUser) : List WsInbound :=
  [.join u.id u.name u.main_language]

/-- The client `onclose` handler (ConvoRoom.tsx lines 327-339): when the close
code is not 1000 it schedules a reconnect (`connectWebSocket`) after the fixed
backoff; a normal closure schedules nothing.  The returned value is the
scheduled delay in milliseconds, if any. -/
def onCloseReconnect (code : Nat) : Option Nat :=
  if code ≠ 1000 then some reconnectDelayMs else none

/-- The client transcription filter (ConvoRoom.tsx line 237): a received
transcription event is kept when its target language equals the user's current
`translateTo` preference or its speaker id equals the user's own id. -/
def clientKeepsTranscription (translateTo : String) (userId : Nat)
    (target_language : String) (speaker_id : Option Nat) : Bool :=
  target_language = translateTo ∨ speaker_id = some userId

/-! ## Audio container encoding: `bufferToWav` (ConvoRoom.tsx lines 508-544) -/

/-- Little-endian 16-bit write (`setUint16(..., true)`): two bytes. -/
def u16le (x : Nat) : List Nat := [x % 256, x / 256 % 256]

/-- Little-endian 32-bit write (`setUint32(..., true)`): four bytes. -/
def u32le (x : Nat) : List Nat :=
  [x % 256, x / 256 % 256, x / 65536 % 256, x / 16777216 % 256]

/-- `writeString`: one byte per character via `charCodeAt` and `setUint8`
(which wraps modulo 256). -/
def strBytes (s : String) : List Nat := s.data.map (fun c => c.toNat % 256)

/-- `Math.max(-1, Math.min(1, buffer[i]))` (ConvoRoom.tsx line 539). -/
def clampSample (s : Rat) : Rat := max (-1) (min 1 s)

/-- The 16-bit quantisation of one sample (ConvoRoom.tsx line 540):
`s < 0 ? s * 0x8000 : s * 0x7FFF`, truncated toward zero by `setInt16`. -/
def quantize (s : Rat) : Int :=
  let c := clampSample s
  if c < 0 then ⌈c * 32768⌉ else ⌊c * 32767⌋

/-- `setInt16(offset, v, true)`: the value modulo 2^16, written as two
little-endian bytes. -/
def i16le (x : Int) : List Nat :=
  [(x % 65536).toNat % 256, (x % 65536).toNat / 256]

/-- The data section of the container: the quantised samples in order, two
bytes each (the write loop of ConvoRoom.tsx lines 538-541). -/
def sampleBytes : List Rat → List Nat
  | [] => []
  | s :: rest => i16le (quantize s) ++ sampleBytes rest

/-- `bufferToWav` (ConvoRoom.tsx lines 508-544): the 44-byte RIFF/WAVE header
followed by the 16-bit little-endian sample data.  `numChannels = 1`,
`sampleRate = 16000`, `bitDepth = 16`, `dataSize = numSamples * numChannels *
(bitDepth / 8)`, `byteRate = sampleRate * numChannels * (bitDepth / 8)`,
`blockAlign = numChannels * (bitDepth / 8)`. -/
def bufferToWav (buffer : List Rat) : List Nat :=
  let numSamples := buffer.length
  let dataSize := numSamples * 2
  strBytes "RIFF" ++ u32le (36 + dataSize) ++ strBytes "WAVE" ++
  strBytes "fmt " ++ u32le 16 ++ u16le 1 ++ u16le 1 ++ u32le 16000 ++
  u32le 32000 ++ u16le 2 ++ u16le 16 ++ strBytes "data" ++ u32le dataSize ++
  sampleBytes buffer

/-- Read a little-endian 16-bit value at byte offset `i`. -/
def readU16 (l : List Nat) (i : Nat) : Option Nat :=
  match l.drop i with
  | a :: b :: _ => some (a + 256 * b)
  | _ => none

/-- Read a little-endian 32-bit value at byte offset `i`. -/
def readU32 (l : List Nat) (i : Nat) : Option Nat :=
  match l.drop i with
  | a :: b :: c :: d :: _ => some (a + 256 * b + 65536 * c + 16777216 * d)
  | _ => none

/-- Signed interpretation of a stored 16-bit sample. -/
def i16val (lo hi : Nat) : Int :=
  let u := lo + 256 * hi
  if u < 32768 then (u : Int) else (u : Int) - 65536

/-- Decode the data section back into samples, two bytes at a time. -/
def decodeSamples : List Nat → Option (List Int)
  | [] => some []
  | [_] => none
  | lo :: hi :: rest => (decodeSamples rest).map (fun t => i16val lo hi :: t)

/-- Decoder for the container: checks the RIFF/WAVE/data magics, reads the
declared channel count (offset 22), sample rate (offset 24), bit depth
(offset 34) and data size (offset 40) from the header, and decodes the sample
data that follows the 44-byte header. -/
def parseWav (l : List Nat) : Option (Nat × Nat × Nat × Nat × List Int) :=
  if l.take 4 = strBytes "RIFF" ∧ (l.drop 8).take 4 = strBytes "WAVE" ∧
     (l.drop 36).take 4 = strBytes "data" then
    match readU16 l 22, readU32 l 24, readU16 l 34, readU32 l 40,
          decodeSamples (l.drop 44) with
    | some ch, some sr, some bd, some ds, some samples =>
        some (ch, sr, bd, ds, samples)
    | _, _, _, _, _ => none
  else none

/-! ## Downsampling: `downsampleBuffer` (ConvoRoom.tsx lines 485-506) -/

/-- JavaScript `Math.round` for the nonnegative values used here:
round half away from zero, i.e. the floor of `q + 1/2`. -/
def jround (q : Rat) : Int := ⌊q + 1/2⌋

/-- The `while (offsetResult < result.length)` loop of `downsampleBuffer`,
with `r` the precomputed `sampleRateRatio = sampleRate / outSampleRate`,
`offsetResult` and `offsetBuffer` the two cursors of the source, and the fuel
equal to the number of remaining iterations (`result.length - offsetResult`).
Each iteration averages the source samples with indices in
`[offsetBuffer, min nextOffsetBuffer buffer.length)`; in the source a window
with `count = 0` would produce `NaN` (`0/0`), which the rational embedding
renders as `0/0 = 0` — the NaN-freedom claim is the positivity of `count`. -/
def dsLoop (buffer : List Rat) (r : Rat) :
    Nat → Nat → Nat → List Rat
  | _, _, 0 => []
  | offsetResult, offsetBuffer, fuel + 1 =>
    let nextOffsetBuffer := (jround (((offsetResult : Rat) + 1) * r)).toNat
    let hi := min nextOffsetBuffer buffer.length
    let idxs := List.range' offsetBuffer (hi - offsetBuffer)
    let accum := (idxs.map (fun i => buffer.getD i 0)).sum
    let count := idxs.length
    accum / (count : Rat) :: dsLoop buffer r (offsetResult + 1) nextOffsetBuffer fuel

/-- `downsampleBuffer(buffer, sampleRate, outSampleRate)` (ConvoRoom.tsx
lines 485-506): identity when the rates are equal, otherwise
`newLength = Math.round(buffer.length / sampleRateRatio)` output samples, each
the average of its source window. -/
def downsampleBuffer (buffer : List Rat) (sampleRate outSampleRate : Nat) :
    List Rat :=
  if outSampleRate = sampleRate then buffer
  else
    let r : Rat := (sampleRate : Rat) / (outSampleRate : Rat)
    let newLength := (jround ((buffer.length : Rat) / r)).toNat
    dsLoop buffer r 0 0 newLength

/-- Left endpoint of output window `k`: `offsetBuffer` at iteration `k`,
which the loop maintains as `round(k * r)`. -/
def windowLo (r : Rat) (k : Nat) : Nat := (jround ((k : Rat) * r)).toNat

/-- Right endpoint (exclusive) of output window `k`, clamped to the buffer
length. -/
def windowHi (len : Nat) (r : Rat) (k : Nat) : Nat :=
  min ((jround (((k : Rat) + 1) * r)).toNat) len

/-- Number of source samples averaged into output sample `k`. -/
def windowCount (len : Nat) (r : Rat) (k : Nat) : Nat :=
  windowHi len r k - windowLo r k

/-- Sum of the source samples averaged into output sample `k`. -/
def windowSum (buffer : List Rat) (r : Rat) (k : Nat) : Rat :=
  ((List.range' (windowLo r k) (windowCount buffer.length r k)).map
    (fun i => buffer.getD i 0)).sum

/-! ## Helper lemmas -/

theorem srvRun_closed (c : Nat) (ms : List WsInbound) :
    srvRun (.closed c) ms = (.closed c, []) := by
  induction ms with
  | nil => rfl
  | cons m ms ih => simp [srvRun, srvStep, ih]

theorem fanOut_mem (conns : List Nat) (ms : List BroadcastMessage)
    (c : Nat) (m : BroadcastMessage) :
    (c, m) ∈ fanOut conns ms ↔ m ∈ ms ∧ c ∈ conns := by
  induction ms with
  | nil => simp [fanOut]
  | cons m0 rest ih =>
    simp only [fanOut, manager_broadcast, List.mem_append, List.mem_map, ih,
      List.mem_cons, Prod.mk.injEq]
    constructor
    · rintro (⟨a, ha, rfl, rfl⟩ | ⟨hm, hc⟩)
      · exact ⟨Or.inl rfl, ha⟩
      · exact ⟨Or.inr hm, hc⟩
    · rintro ⟨rfl | hm, hc⟩
      · exact Or.inl ⟨c, hc, rfl, rfl⟩
      · exact Or.inr ⟨hm, hc⟩

theorem fanOut_length (conns : List Nat) (ms : List BroadcastMessage) :
    (fanOut conns ms).length = ms.length * conns.length := by
  induction ms with
  | nil => simp [fanOut]
  | cons m0 rest ih =>
    simp [fanOut, manager_broadcast, ih, Nat.succ_mul]
    omega

theorem runTranslations_fst_length (g : TranslateOracle) (text src : String) :
    ∀ (ts : List String) (cache : TranslationCache),
      (runTranslations g text src cache ts).1.length = ts.length := by
  intro ts
  induction ts with
  | nil => intro cache; rfl
  | cons t ts ih => intro cache; simp [runTranslations, ih]

theorem cacheKey_inj_dest (text src d1 d2 : String)
    (h : cacheKey text src d1 = cacheKey text src d2) : d1 = d2 := by
  unfold cacheKey at h
  have hd := congrArg String.data h
  simp only [String.data_append] at hd
  have : d1.data = d2.data := by
    apply List.append_cancel_left hd
  cases d1; cases d2
  exact congrArg String.mk this

/-- The unit handler on the non-abort path, spelled out. -/
theorem handleUnit_run (g : TranslateOracle) (cache : TranslationCache)
    (conns : List Nat) (participants : List Participant)
    (speaker_id : Nat) (speakerName : String)
    (samples : List Rat) (tr : TranscriptionResult)
    (h1 : samples ≠ []) (h2 : pyStrip tr.text ≠ "") (h3 : ¬tr.confidence < confidenceFloor) :
    handleUnit g cache conns participants speaker_id speakerName samples tr =
      { transcriptionSaved := some (speaker_id, tr.text, tr.language, tr.confidence)
        translationsSaved :=
          (runTranslations g tr.text tr.language cache
            (collectTargets participants tr.language)).1
        messages := participants.map
          (buildMessage speakerName tr.text tr.language tr.confidence
            (runTranslations g tr.text tr.language cache
              (collectTargets participants tr.language)).1)
        sends := fanOut conns (participants.map
          (buildMessage speakerName tr.text tr.language tr.confidence
            (runTranslations g tr.text tr.language cache
              (collectTargets participants tr.language)).1))
        externalCalls :=
          (runTranslations g tr.text tr.language cache
            (collectTargets participants tr.language)).2.2
        cacheAfter :=
          (runTranslations g tr.text tr.language cache
            (collectTargets participants tr.language)).2.1 } := by
  unfold handleUnit
  rw [if_neg h1, if_neg (not_or.mpr ⟨h2, h3⟩)]

theorem collectTargets_mem (participants : List Participant) (detected t : String) :
    t ∈ collectTargets participants detected ↔
      t ∈ participants.map (·.translate_to_language) ∧ t ≠ detected := by
  simp [collectTargets, List.mem_dedup, List.mem_filter]

theorem collectTargets_nodup (participants : List Participant) (detected : String) :
    (collectTargets participants detected).Nodup :=
  List.nodup_dedup _

theorem collectTargets_length (participants : List Participant) (detected : String) :
    (collectTargets participants detected).length =
      ((participants.map (·.translate_to_language)).filter
        (fun t => t ≠ detected)).toFinset.card := by
  rw [List.card_toFinset]
  rfl

/-- The translation loop when every request misses the cache: one external
call per target, and each target maps to the engine's answer (falling back to
the source text when the engine raised). -/
theorem runTranslations_all_miss (g : TranslateOracle) (text src : String)
    (htext : text ≠ "") :
    ∀ (ts : List String) (cache : TranslationCache),
      (∀ t ∈ ts, t ≠ src) →
      (∀ t ∈ ts, cache.lookup
        (cacheKey text (language_mapping src) (language_mapping t)) = none) →
      (∀ t1 ∈ ts, ∀ t2 ∈ ts, language_mapping t1 = language_mapping t2 → t1 = t2) →
      ts.Nodup →
      (runTranslations g text src cache ts).1 =
        ts.map (fun t =>
          (t, (g text (language_mapping src) (language_mapping t)).getD text)) ∧
      (runTranslations g text src cache ts).2.2 = ts.length := by
  intro ts
  induction ts with
  | nil => intro cache _ _ _ _; simp [runTranslations]
  | cons t ts ih =>
    intro cache hne hmiss hinj hnd
    have hts : t ∉ ts ∧ ts.Nodup := by
      simpa [List.nodup_cons] using hnd
    have h0 : ¬(text = "" ∨ src = t) := by
      push_neg
      exact ⟨htext, fun h => hne t (List.mem_cons_self t ts) h.symm⟩
    have hm0 : cache.lookup
        (cacheKey text (language_mapping src) (language_mapping t)) = none :=
      hmiss t (List.mem_cons_self t ts)
    cases hg : g text (language_mapping src) (language_mapping t) with
    | none =>
      have htr : translate g cache text src t =
          { result := text, cache := cache, externalCalls := 1 } := by
        unfold translate
        rw [if_neg h0]
        simp only [hm0, hg]
      have hrest := ih cache (fun x hx => hne x (List.mem_cons_of_mem _ hx))
        (fun x hx => hmiss x (List.mem_cons_of_mem _ hx))
        (fun x hx y hy => hinj x (List.mem_cons_of_mem _ hx) y (List.mem_cons_of_mem _ hy))
        hts.2
      refine ⟨?_, ?_⟩
      · simp [runTranslations, htr, hrest.1, hg]
      · simp [runTranslations, htr, hrest.2]
        omega
    | some v =>
      have htr : translate g cache text src t =
          { result := v
            cache := (cacheKey text (language_mapping src) (language_mapping t), v) :: cache
            externalCalls := 1 } := by
        unfold translate
        rw [if_neg h0]
        simp only [hm0, hg]
      have hmiss2 : ∀ x ∈ ts,
          ((cacheKey text (language_mapping src) (language_mapping t), v) ::
            cache).lookup
            (cacheKey text (language_mapping src) (language_mapping x)) = none := by
        intro x hx
        have hxt : x ≠ t := fun h => hts.1 (h ▸ hx)
        have hkey : cacheKey text (language_mapping src) (language_mapping x) ≠
            cacheKey text (language_mapping src) (language_mapping t) := by
          intro hk
          exact hxt (hinj x (List.mem_cons_of_mem _ hx) t (List.mem_cons_self t ts)
            (cacheKey_inj_dest _ _ _ _ hk))
        have hb : (cacheKey text (language_mapping src) (language_mapping x) ==
            cacheKey text (language_mapping src) (language_mapping t)) = false :=
          beq_eq_false_iff_ne.mpr hkey
        simp [List.lookup, hb, hmiss x (List.mem_cons_of_mem _ hx)]
      have hrest := ih _ (fun x hx => hne x (List.mem_cons_of_mem _ hx)) hmiss2
        (fun x hx y hy => hinj x (List.mem_cons_of_mem _ hx) y (List.mem_cons_of_mem _ hy))
        hts.2
      refine ⟨?_, ?_⟩
      · simp [runTranslations, htr, hrest.1, hg]
      · simp [runTranslations, htr, hrest.2]
        omega

theorem lookup_map_self (f : String → String) :
    ∀ (ts : List String), ts.Nodup → ∀ t ∈ ts,
      (ts.map (fun x => (x, f x))).lookup t = some (f t) := by
  intro ts
  induction ts with
  | nil => intro _ t ht; simp at ht
  | cons x ts ih =>
    intro hnd t ht
    have hts : x ∉ ts ∧ ts.Nodup := by simpa [List.nodup_cons] using hnd
    rcases List.mem_cons.mp ht with rfl | ht'
    · simp [List.lookup]
    · have hne : t ≠ x := fun h => hts.1 (h ▸ ht')
      have hb : (t == x) = false := beq_eq_false_iff_ne.mpr hne
      simp [List.lookup, hb, ih hts.2 t ht']

/-! ## Claims -/

/-- C4: for every received audio unit, if decoding yields an empty sample
array, or the recognised text is empty after trimming, or the recognition
confidence is below the fixed floor 0.3, the unit is aborted silently: no
transcription or translation or message is persisted, nothing is broadcast,
no external call is made, and the cache (the only mutable pipeline state the
handler touches) is left unchanged. -/
theorem c4_unit_abort_is_silent (g : TranslateOracle) (cache : TranslationCache)
    (conns : List Nat) (participants : List Participant) (speaker_id : Nat)
    (speakerName : String) (samples : List Rat) (tr : TranscriptionResult)
    (h : samples = [] ∨ pyStrip tr.text = "" ∨ tr.confidence < confidenceFloor) :
    handleUnit g cache conns participants speaker_id speakerName samples tr =
      { transcriptionSaved := none, translationsSaved := [], messages := []
        sends := [], externalCalls := 0, cacheAfter := cache } := by
  unfold handleUnit
  by_cases hs : samples = []
  · rw [if_pos hs]
  · rw [if_neg hs]
    rcases h with h | h | h
    · exact absurd h hs
    · rw [if_pos (Or.inl h)]
    · rw [if_pos (Or.inr h)]

/-- C4 witness: the spec scenario — confidence 0.1 on a unit produces no
broadcast, no persistence call and no state mutation. -/
theorem c4_witness :
    handleUnit demoOracle [] [1, 2] [⟨1, "en"⟩, ⟨2, "en"⟩] 2 "B" [1]
      ⟨"hello", "en", mkRat 1 10⟩ =
      { transcriptionSaved := none, translationsSaved := [], messages := []
        sends := [], externalCalls := 0, cacheAfter := [] } :=
  c4_unit_abort_is_silent demoOracle [] [1, 2] [⟨1, "en"⟩, ⟨2, "en"⟩] 2 "B" [1]
    ⟨"hello", "en", mkRat 1 10⟩ (Or.inr (Or.inr (by decide)))

/-- C5: the translation cache is keyed by (source text, source language,
target language).  After a `translate(t, s, d)` call whose external request
succeeded, re-requesting `translate(t, s, d)` returns the cached value and
issues no new external call; and `translate` is the identity, with no external
call and no cache change, whenever the text is empty or the source language
equals the target language. -/
theorem c5_translation_cache (g : TranslateOracle) :
    (∀ (cache : TranslationCache) (text src_lang dest_lang : String),
        (g text (language_mapping src_lang) (language_mapping dest_lang)).isSome →
        translate g (translate g cache text src_lang dest_lang).cache
            text src_lang dest_lang =
          { result := (translate g cache text src_lang dest_lang).result
            cache := (translate g cache text src_lang dest_lang).cache
            externalCalls := 0 }) ∧
    (∀ (cache : TranslationCache) (text src_lang dest_lang : String),
        text = "" ∨ src_lang = dest_lang →
        translate g cache text src_lang dest_lang =
          { result := text, cache := cache, externalCalls := 0 }) := by
  constructor
  · intro cache text s d hg
    by_cases h0 : text = "" ∨ s = d
    · unfold translate
      simp only [if_pos h0]
    · cases hl : cache.lookup
        (cacheKey text (language_mapping s) (language_mapping d)) with
      | some v =>
        have h1 : translate g cache text s d =
            { result := v, cache := cache, externalCalls := 0 } := by
          unfold translate
          rw [if_neg h0]
          simp only [hl]
        rw [h1]
        unfold translate
        rw [if_neg h0]
        simp only [hl]
      | none =>
        cases hgv : g text (language_mapping s) (language_mapping d) with
        | none => rw [hgv] at hg; simp at hg
        | some tv =>
          have h1 : translate g cache text s d =
              { result := tv
                cache := (cacheKey text (language_mapping s) (language_mapping d),
                  tv) :: cache
                externalCalls := 1 } := by
            unfold translate
            rw [if_neg h0]
            simp only [hl, hgv]
          rw [h1]
          unfold translate
          rw [if_neg h0]
          simp [List.lookup]
  · intro cache text s d h
    unfold translate
    rw [if_pos h]

/-- C5 witness: concrete cache hit after a successful call, and the identity
case on empty text. -/
theorem c5_witness :
    (translate demoOracle (translate demoOracle [] "hi" "en" "fr").cache
        "hi" "en" "fr" =
      { result := (translate demoOracle [] "hi" "en" "fr").result
        cache := (translate demoOracle [] "hi" "en" "fr").cache
        externalCalls := 0 }) ∧
    translate demoOracle [] "" "en" "fr" =
      { result := "", cache := [], externalCalls := 0 } :=
  ⟨(c5_translation_cache demoOracle).1 [] "hi" "en" "fr" rfl,
   (c5_translation_cache demoOracle).2 [] "" "en" "fr" (Or.inl rfl)⟩

/-- C7: join must be the first inbound message; any run whose first inbound
message is not a join rejects it, closes the channel with the policy-violation
close code, and produces no audio processing and no broadcast whatsoever. -/
theorem c7_join_must_be_first (m : WsInbound) (ms : List WsInbound)
    (h : m.isJoin = false) :
    srvRun .waitingJoin (m :: ms) =
      (.closed policyViolationCode, [.closeChannel policyViolationCode]) ∧
    SrvEffect.processAudio ∉ (srvRun .waitingJoin (m :: ms)).2 ∧
    ∀ k, SrvEffect.broadcastEvent k ∉ (srvRun .waitingJoin (m :: ms)).2 := by
  have hstep : srvStep .waitingJoin m =
      (.closed policyViolationCode, [.closeChannel policyViolationCode]) := by
    cases m <;> first
      | rfl
      | simp [WsInbound.isJoin] at h
  have hrun : srvRun .waitingJoin (m :: ms) =
      (.closed policyViolationCode, [.closeChannel policyViolationCode]) := by
    simp [srvRun, hstep, srvRun_closed]
  refine ⟨hrun, ?_, ?_⟩
  · rw [hrun]; simp
  · intro k; rw [hrun]; simp

/-- C7 witness: an audio frame arriving before any join is rejected with the
policy-violation close code and nothing is processed or broadcast. -/
theorem c7_witness :
    srvRun .waitingJoin [.audio [0]] =
      (.closed policyViolationCode, [.closeChannel policyViolationCode]) ∧
    SrvEffect.processAudio ∉ (srvRun .waitingJoin [.audio [0]]).2 ∧
    ∀ k, SrvEffect.broadcastEvent k ∉ (srvRun .waitingJoin [.audio [0]]).2 :=
  c7_join_must_be_first (.audio [0]) [] rfl

/-- C8: on a transport closure with a non-normal close code the client
schedules a reconnect after the fixed 3000 ms backoff, and the first (and
only) message sent on any newly opened transport is the replayed join; on a
normal closure (code 1000) no reconnect is scheduled. -/
theorem c8_reconnect_policy (code : Nat) (u : ClientUser) :
    (code ≠ 1000 →
      onCloseReconnect code = some reconnectDelayMs ∧
      reconnectDelayMs = 3000 ∧
      onOpenSends u = [.join u.id u.name u.main_language]) ∧
    (code = 1000 → onCloseReconnect code = none) := by
  constructor
  · intro h
    refine ⟨?_, rfl, rfl⟩
    unfold onCloseReconnect
    rw [if_pos h]
  · intro h
    unfold onCloseReconnect
    rw [if_neg (by simp [h])]

/-- C8 witness: an abnormal closure (1006) reconnects after 3000 ms and
replays join; a normal closure (1000) does not reconnect. -/
theorem c8_witness :
    (onCloseReconnect 1006 = some reconnectDelayMs ∧ reconnectDelayMs = 3000 ∧
      onOpenSends ⟨1, "A", "en"⟩ = [.join 1 "A" "en"]) ∧
    onCloseReconnect 1000 = none :=
  ⟨(c8_reconnect_policy 1006 ⟨1, "A", "en"⟩).1 (by decide),
   (c8_reconnect_policy 1000 ⟨1, "A", "en"⟩).2 rfl⟩

/-- C1 counterexample: in the concrete room with participant 1 (target "en",
socket 1, the speaker, name "A") and participant 2 (target "fr", socket 2),
the unit "hello" detected as "en" produces a message personalized for
participant 1 that is delivered to socket 2 as well as socket 1 — i.e. it is
broadcast verbatim to all sockets — even though it differs from participant
2's personalized message, its target language is not participant 2's target
"fr", and (the speaker being user 1) it does not carry participant 2's own
speech.  This refutes per-transport delivery, the no-verbatim-broadcast
clause, and the dispatch invariant of C1. -/
theorem c1_counterexample :
    ((2, ⟨"A", "hello", "en", none, "en", mkRat 9 10⟩) ∈
      (handleUnit demoOracle [] [1, 2] [⟨1, "en"⟩, ⟨2, "fr"⟩] 1 "A" [1]
        ⟨"hello", "en", mkRat 9 10⟩).sends) ∧
    ((1, (⟨"A", "hello", "en", none, "en", mkRat 9 10⟩ : BroadcastMessage)) ∈
      (handleUnit demoOracle [] [1, 2] [⟨1, "en"⟩, ⟨2, "fr"⟩] 1 "A" [1]
        ⟨"hello", "en", mkRat 9 10⟩).sends) ∧
    ((⟨"A", "hello", "en", none, "en", mkRat 9 10⟩ : BroadcastMessage) ≠
      ⟨"A", "hello", "en", some "fr:hello", "fr", mkRat 9 10⟩) ∧
    (BroadcastMessage.target_language
      ⟨"A", "hello", "en", none, "en", mkRat 9 10⟩ ≠ "fr") := by
  decide

/-- C1 (amended): for every finalized (non-aborted) unit, each participant's
personalized Outbound Message is broadcast to every open socket of the room —
the server performs no per-transport restriction; personalization lives only
in the message contents, and the client filters received messages by target
language. -/
theorem c1_amended_broadcast_to_all (g : TranslateOracle)
    (cache : TranslationCache) (conns : List Nat)
    (participants : List Participant) (speaker_id : Nat) (speakerName : String)
    (samples : List Rat) (tr : TranscriptionResult)
    (h1 : samples ≠ []) (h2 : pyStrip tr.text ≠ "")
    (h3 : ¬tr.confidence < confidenceFloor) :
    ∀ p ∈ participants, ∀ c ∈ conns,
      (c, buildMessage speakerName tr.text tr.language tr.confidence
        (handleUnit g cache conns participants speaker_id speakerName
          samples tr).translationsSaved p) ∈
      (handleUnit g cache conns participants speaker_id speakerName
        samples tr).sends := by
  intro p hp c hc
  rw [handleUnit_run g cache conns participants speaker_id speakerName
    samples tr h1 h2 h3]
  exact (fanOut_mem conns _ c _).mpr ⟨List.mem_map_of_mem _ hp, hc⟩

/-- C1 witness: in the concrete room of the counterexample, participant 1's
personalized message is delivered (among others) to socket 2. -/
theorem c1_witness :
    (2, buildMessage "A" "hello" "en" (mkRat 9 10)
      (handleUnit demoOracle [] [1, 2] [⟨1, "en"⟩, ⟨2, "fr"⟩] 1 "A" [1]
        ⟨"hello", "en", mkRat 9 10⟩).translationsSaved ⟨1, "en"⟩) ∈
    (handleUnit demoOracle [] [1, 2] [⟨1, "en"⟩, ⟨2, "fr"⟩] 1 "A" [1]
      ⟨"hello", "en", mkRat 9 10⟩).sends :=
  c1_amended_broadcast_to_all demoOracle [] [1, 2] [⟨1, "en"⟩, ⟨2, "fr"⟩] 1 "A"
    [1] ⟨"hello", "en", mkRat 9 10⟩ (by decide) (by decide) (by decide)
    ⟨1, "en"⟩ (by decide) 2 (by decide)

/-- C2 counterexample: user 2 ("B", the speaker, a participant with target
"en") speaks a unit detected as "fr".  The message built for the speaker
carries `translated_text = some "en:bonjour"`, not null — there is no speaker
exception in the message builder, refuting the claim (and the spec scenario
"B still sees her own message with translated_text=null"). -/
theorem c2_counterexample :
    (handleUnit demoOracle [] [1, 2] [⟨1, "en"⟩, ⟨2, "en"⟩] 2 "B" [1]
      ⟨"bonjour", "fr", mkRat 9 10⟩).messages.get? 1 =
      some ⟨"B", "bonjour", "fr", some "en:bonjour", "en", mkRat 9 10⟩ ∧
    (handleUnit demoOracle [] [1, 2] [⟨1, "en"⟩, ⟨2, "en"⟩] 2 "B" [1]
      ⟨"bonjour", "fr", mkRat 9 10⟩).transcriptionSaved =
      some (2, "bonjour", "fr", mkRat 9 10) := by
  decide

/-- C2 (amended): for every finalized (non-aborted) unit, the handler builds
exactly one message per participant; a participant's message carries no
translated text exactly when that participant's target language equals the
detected source language, and otherwise carries the translation looked up for
that target (falling back to the original text).  The speaker receives no
special treatment. -/
theorem c2_amended_translated_iff_target_differs (g : TranslateOracle)
    (cache : TranslationCache) (conns : List Nat)
    (participants : List Participant) (speaker_id : Nat) (speakerName : String)
    (samples : List Rat) (tr : TranscriptionResult)
    (h1 : samples ≠ []) (h2 : pyStrip tr.text ≠ "")
    (h3 : ¬tr.confidence < confidenceFloor) :
    (handleUnit g cache conns participants speaker_id speakerName
        samples tr).messages =
      participants.map (buildMessage speakerName tr.text tr.language
        tr.confidence
        (handleUnit g cache conns participants speaker_id speakerName
          samples tr).translationsSaved) ∧
    (∀ p : Participant,
      (buildMessage speakerName tr.text tr.language tr.confidence
        (handleUnit g cache conns participants speaker_id speakerName
          samples tr).translationsSaved p).translated_text = none ↔
      p.translate_to_language = tr.language) ∧
    (∀ p : Participant, p.translate_to_language ≠ tr.language →
      (buildMessage speakerName tr.text tr.language tr.confidence
        (handleUnit g cache conns participants speaker_id speakerName
          samples tr).translationsSaved p).translated_text =
      some (((handleUnit g cache conns participants speaker_id speakerName
          samples tr).translationsSaved.lookup p.translate_to_language).getD
        tr.text)) := by
  rw [handleUnit_run g cache conns participants speaker_id speakerName
    samples tr h1 h2 h3]
  refine ⟨rfl, ?_, ?_⟩
  · intro p
    unfold buildMessage
    by_cases h : p.translate_to_language = tr.language
    · simp [h]
    · simp [h]
  · intro p h
    unfold buildMessage
    simp [h]

/-- C2 witness: the handler's dispatched messages for the counterexample room
are exactly the per-participant builds. -/
theorem c2_witness :
    (handleUnit demoOracle [] [1, 2] [⟨1, "en"⟩, ⟨2, "en"⟩] 2 "B" [1]
        ⟨"bonjour", "fr", mkRat 9 10⟩).messages =
      ([⟨1, "en"⟩, ⟨2, "en"⟩] : List Participant).map
        (buildMessage "B" "bonjour" "fr" (mkRat 9 10)
          (handleUnit demoOracle [] [1, 2] [⟨1, "en"⟩, ⟨2, "en"⟩] 2 "B" [1]
            ⟨"bonjour", "fr", mkRat 9 10⟩).translationsSaved) :=
  (c2_amended_translated_iff_target_differs demoOracle [] [1, 2]
    [⟨1, "en"⟩, ⟨2, "en"⟩] 2 "B" [1] ⟨"bonjour", "fr", mkRat 9 10⟩
    (by decide) (by decide) (by decide)).1

/-- C3 counterexample: one participant with target "fr", detected language
"en", and a cache already holding the key "hi:en:fr".  The number of distinct
target languages differing from the source is 1, but the unit issues 0
external translation calls — the cache short-circuits the external call, so
the count claimed by C3 does not hold as stated. -/
theorem c3_counterexample :
    (handleUnit demoOracle [("hi:en:fr", "salut")] [1] [⟨1, "fr"⟩] 1 "A" [1]
      ⟨"hi", "en", mkRat 9 10⟩).externalCalls = 0 ∧
    ((([⟨1, "fr"⟩] : List Participant).map (·.translate_to_language)).filter
      (fun t => t ≠ "en")).toFinset.card = 1 := by
  decide

/-- C3 (amended): for every finalized (non-aborted) unit the handler issues
exactly one translation request per distinct target language among the roster
that differs from the detected language — never one per participant
(unconditionally); and whenever the cache holds none of the requested keys and
no two distinct requested languages normalise to the same code, the number of
external translation-engine calls equals that same distinct count. -/
theorem c3_amended_dedup_translation_calls (g : TranslateOracle)
    (cache : TranslationCache) (conns : List Nat)
    (participants : List Participant) (speaker_id : Nat) (speakerName : String)
    (samples : List Rat) (tr : TranscriptionResult)
    (h1 : samples ≠ []) (h2 : pyStrip tr.text ≠ "")
    (h3 : ¬tr.confidence < confidenceFloor) :
    (handleUnit g cache conns participants speaker_id speakerName
        samples tr).translationsSaved.length =
      ((participants.map (·.translate_to_language)).filter
        (fun t => t ≠ tr.language)).toFinset.card ∧
    ((∀ t ∈ collectTargets participants tr.language,
        cache.lookup (cacheKey tr.text (language_mapping tr.language)
          (language_mapping t)) = none) →
     (∀ t1 ∈ collectTargets participants tr.language,
        ∀ t2 ∈ collectTargets participants tr.language,
        language_mapping t1 = language_mapping t2 → t1 = t2) →
     (handleUnit g cache conns participants speaker_id speakerName
        samples tr).externalCalls =
      ((participants.map (·.translate_to_language)).filter
        (fun t => t ≠ tr.language)).toFinset.card) := by
  rw [handleUnit_run g cache conns participants speaker_id speakerName
    samples tr h1 h2 h3]
  constructor
  · show (runTranslations g tr.text tr.language cache
      (collectTargets participants tr.language)).1.length = _
    rw [runTranslations_fst_length]
    exact collectTargets_length participants tr.language
  · intro hmiss hinj
    have htext : tr.text ≠ "" := by
      intro he
      apply h2
      rw [he]
      rfl
    have hne : ∀ t ∈ collectTargets participants tr.language,
        t ≠ tr.language :=
      fun t ht => ((collectTargets_mem participants tr.language t).mp ht).2
    have hchar := runTranslations_all_miss g tr.text tr.language htext
      (collectTargets participants tr.language) cache hne hmiss hinj
      (collectTargets_nodup participants tr.language)
    show (runTranslations g tr.text tr.language cache
      (collectTargets participants tr.language)).2.2 = _
    rw [hchar.2]
    exact collectTargets_length participants tr.language

/-- C3 witness: two participants sharing target "fr" on a unit detected as
"en", with a cache holding none of the requested keys: one translation request
and one external call, not two. -/
theorem c3_witness :
    (handleUnit demoOracle [] [1, 2] [⟨1, "fr"⟩, ⟨2, "fr"⟩] 1 "A" [1]
        ⟨"hi", "en", mkRat 9 10⟩).translationsSaved.length =
      ((([⟨1, "fr"⟩, ⟨2, "fr"⟩] : List Participant).map
        (·.translate_to_language)).filter
        (fun t => t ≠ "en")).toFinset.card ∧
    (handleUnit demoOracle [] [1, 2] [⟨1, "fr"⟩, ⟨2, "fr"⟩] 1 "A" [1]
        ⟨"hi", "en", mkRat 9 10⟩).externalCalls =
      ((([⟨1, "fr"⟩, ⟨2, "fr"⟩] : List Participant).map
        (·.translate_to_language)).filter
        (fun t => t ≠ "en")).toFinset.card :=
  ⟨(c3_amended_dedup_translation_calls demoOracle [] [1, 2]
      [⟨1, "fr"⟩, ⟨2, "fr"⟩] 1 "A" [1] ⟨"hi", "en", mkRat 9 10⟩
      (by decide) (by decide) (by decide)).1,
   (c3_amended_dedup_translation_calls demoOracle [] [1, 2]
      [⟨1, "fr"⟩, ⟨2, "fr"⟩] 1 "A" [1] ⟨"hi", "en", mkRat 9 10⟩
      (by decide) (by decide) (by decide)).2 (by decide) (by decide)⟩

/-- C6: for every finalized (non-aborted) unit translated from a cold cache
(with no two distinct requested languages normalising to the same code), a
target language whose external call fails is mapped to the untranslated source
text — while every target whose external call succeeds gets the engine's
answer — and the unit is still fully dispatched: one message per participant,
each broadcast to every socket of the room.  A per-language failure never
aborts the unit. -/
theorem c6_translation_failure_fallback (g : TranslateOracle)
    (cache : TranslationCache) (conns : List Nat)
    (participants : List Participant) (speaker_id : Nat) (speakerName : String)
    (samples : List Rat) (tr : TranscriptionResult)
    (h1 : samples ≠ []) (h2 : pyStrip tr.text ≠ "")
    (h3 : ¬tr.confidence < confidenceFloor)
    (hc : cache = [])
    (hinj : ∀ t1 ∈ collectTargets participants tr.language,
      ∀ t2 ∈ collectTargets participants tr.language,
      language_mapping t1 = language_mapping t2 → t1 = t2) :
    (∀ t ∈ collectTargets participants tr.language,
      g tr.text (language_mapping tr.language) (language_mapping t) = none →
      ((handleUnit g cache conns participants speaker_id speakerName
        samples tr).translationsSaved).lookup t = some tr.text) ∧
    (∀ t ∈ collectTargets participants tr.language, ∀ v,
      g tr.text (language_mapping tr.language) (language_mapping t) = some v →
      ((handleUnit g cache conns participants speaker_id speakerName
        samples tr).translationsSaved).lookup t = some v) ∧
    (handleUnit g cache conns participants speaker_id speakerName
      samples tr).messages.length = participants.length ∧
    (handleUnit g cache conns participants speaker_id speakerName
      samples tr).sends.length = participants.length * conns.length := by
  subst hc
  rw [handleUnit_run g [] conns participants speaker_id speakerName
    samples tr h1 h2 h3]
  have htext : tr.text ≠ "" := by
    intro he
    apply h2
    rw [he]
    rfl
  have hne : ∀ t ∈ collectTargets participants tr.language, t ≠ tr.language :=
    fun t ht => ((collectTargets_mem participants tr.language t).mp ht).2
  have hmiss : ∀ t ∈ collectTargets participants tr.language,
      ([] : TranslationCache).lookup
        (cacheKey tr.text (language_mapping tr.language)
          (language_mapping t)) = none :=
    fun t _ => rfl
  have hchar := (runTranslations_all_miss g tr.text tr.language htext
    (collectTargets participants tr.language) [] hne hmiss hinj
    (collectTargets_nodup participants tr.language)).1
  have hlook : ∀ t ∈ collectTargets participants tr.language,
      (runTranslations g tr.text tr.language []
        (collectTargets participants tr.language)).1.lookup t =
      some ((g tr.text (language_mapping tr.language)
        (language_mapping t)).getD tr.text) := by
    intro t ht
    rw [hchar]
    exact lookup_map_self
      (fun x => (g tr.text (language_mapping tr.language)
        (language_mapping x)).getD tr.text)
      (collectTargets participants tr.language)
      (collectTargets_nodup participants tr.language) t ht
  refine ⟨?_, ?_, ?_, ?_⟩
  · intro t ht hg
    have := hlook t ht
    rw [hg] at this
    exact this
  · intro t ht v hg
    have := hlook t ht
    rw [hg] at this
    exact this
  · show (participants.map (buildMessage speakerName tr.text tr.language
      tr.confidence (runTranslations g tr.text tr.language []
        (collectTargets participants tr.language)).1)).length = _
    rw [List.length_map]
  · show (fanOut conns (participants.map (buildMessage speakerName tr.text
      tr.language tr.confidence
      (runTranslations g tr.text tr.language []
        (collectTargets participants tr.language)).1))).length = _
    rw [fanOut_length, List.length_map]

theorem sampleBytes_length (b : List Rat) :
    (sampleBytes b).length = 2 * b.length := by
  induction b with
  | nil => rfl
  | cons s rest ih =>
    show (i16le (quantize s) ++ sampleBytes rest).length = 2 * (rest.length + 1)
    rw [List.length_append, ih]
    show 2 + 2 * rest.length = 2 * (rest.length + 1)
    omega

theorem decodeSamples_sampleBytes (b : List Rat) :
    ∃ s : List Int, decodeSamples (sampleBytes b) = some s ∧
      s.length = b.length := by
  induction b with
  | nil => exact ⟨[], rfl, rfl⟩
  | cons x rest ih =>
    obtain ⟨s, hs, hl⟩ := ih
    refine ⟨i16val ((quantize x % 65536).toNat % 256)
      ((quantize x % 65536).toNat / 256) :: s, ?_, by simp [hl]⟩
    show decodeSamples ((quantize x % 65536).toNat % 256 ::
      (quantize x % 65536).toNat / 256 :: sampleBytes rest) = _
    rw [decodeSamples, hs]
    rfl

/-- The container spelled out byte by byte: the 44-byte header followed by the
sample data. -/
theorem bufferToWav_bytes (b : List Rat) :
    bufferToWav b =
      82 :: 73 :: 70 :: 70 ::
      ((36 + b.length * 2) % 256) :: ((36 + b.length * 2) / 256 % 256) ::
      ((36 + b.length * 2) / 65536 % 256) ::
      ((36 + b.length * 2) / 16777216 % 256) ::
      87 :: 65 :: 86 :: 69 :: 102 :: 109 :: 116 :: 32 ::
      16 :: 0 :: 0 :: 0 :: 1 :: 0 :: 1 :: 0 ::
      128 :: 62 :: 0 :: 0 :: 0 :: 125 :: 0 :: 0 :: 2 :: 0 :: 16 :: 0 ::
      100 :: 97 :: 116 :: 97 ::
      (b.length * 2 % 256) :: (b.length * 2 / 256 % 256) ::
      (b.length * 2 / 65536 % 256) :: (b.length * 2 / 16777216 % 256) ::
      sampleBytes b := rfl

set_option maxHeartbeats 1600000 in
/-- C9: encoding N samples yields a container of exactly 44 + 2N bytes whose
header declares 1 channel, sample rate 16000, bit depth 16 and data size 2N,
and decoding it back yields exactly N samples together with those declared
header fields (provided the data size fits the 32-bit header field, which
`setUint32` writes modulo 2^32). -/
theorem c9_wav_roundtrip (b : List Rat) (h : b.length * 2 < 4294967296) :
    (bufferToWav b).length = 44 + 2 * b.length ∧
    ∃ samples : List Int,
      parseWav (bufferToWav b) = some (1, 16000, 16, b.length * 2, samples) ∧
      samples.length = b.length := by
  constructor
  · rw [bufferToWav_bytes]
    simp only [List.length_cons, sampleBytes_length]
    omega
  · obtain ⟨s, hs, hl⟩ := decodeSamples_sampleBytes b
    refine ⟨s, ?_, hl⟩
    have hmagic : (bufferToWav b).take 4 = strBytes "RIFF" ∧
        ((bufferToWav b).drop 8).take 4 = strBytes "WAVE" ∧
        ((bufferToWav b).drop 36).take 4 = strBytes "data" := ⟨rfl, rfl, rfl⟩
    have h22 : readU16 (bufferToWav b) 22 = some 1 := rfl
    have h24 : readU32 (bufferToWav b) 24 = some 16000 := rfl
    have h34 : readU16 (bufferToWav b) 34 = some 16 := rfl
    have h40 : readU32 (bufferToWav b) 40 = some (b.length * 2) := by
      have h40x : readU32 (bufferToWav b) 40 =
          some (b.length * 2 % 256 + 256 * (b.length * 2 / 256 % 256) +
            65536 * (b.length * 2 / 65536 % 256) +
            16777216 * (b.length * 2 / 16777216 % 256)) := rfl
      rw [h40x]
      refine congrArg some ?_
      omega
    have hdrop : (bufferToWav b).drop 44 = sampleBytes b := rfl
    unfold parseWav
    rw [if_pos hmagic, h22, h24, h34, h40, hdrop, hs]

/-- C9 witness: the one-sample container has 46 bytes and parses back to the
declared header and one decoded sample. -/
theorem c9_witness :
    (bufferToWav [0]).length = 44 + 2 * ([(0 : Rat)].length) ∧
    ∃ samples : List Int,
      parseWav (bufferToWav [0]) =
        some (1, 16000, 16, [(0 : Rat)].length * 2, samples) ∧
      samples.length = [(0 : Rat)].length :=
  c9_wav_roundtrip [0] (by decide)

theorem jround_nonneg (q : Rat) (h : 0 ≤ q) : 0 ≤ jround q := by
  unfold jround
  apply Int.floor_nonneg.mpr
  linarith

theorem jround_step (q r : Rat) (hr : 1 ≤ r) : jround q + 1 ≤ jround (q + r) := by
  unfold jround
  calc ⌊q + 1/2⌋ + 1 = ⌊q + 1/2 + 1⌋ := (Int.floor_add_one _).symm
    _ ≤ ⌊q + r + 1/2⌋ := Int.floor_mono (by linarith)

/-- Every output window of a strict downsampling run is non-empty. -/
theorem windowCount_pos (len sinRate soutRate : Nat) (h1 : soutRate < sinRate)
    (h0 : 0 < soutRate) (k : Nat)
    (hk : (k : Int) + 1 ≤
      jround ((len : Rat) / ((sinRate : Rat) / (soutRate : Rat)))) :
    0 < windowCount len ((sinRate : Rat) / (soutRate : Rat)) k := by
  set r : Rat := (sinRate : Rat) / (soutRate : Rat) with hrdef
  have hsout : (0 : Rat) < (soutRate : Rat) := by exact_mod_cast h0
  have hsin : (soutRate : Rat) < (sinRate : Rat) := by exact_mod_cast h1
  have hr1 : 1 < r := (one_lt_div hsout).mpr hsin
  have hr0 : (0 : Rat) < r := lt_trans one_pos hr1
  have hk' : ((k : Rat) + 1) ≤ (len : Rat) / r + 1/2 := by
    unfold jround at hk
    have := Int.le_floor.mp hk
    push_cast at this
    linarith
  have hA : jround ((k : Rat) * r) < (len : Int) := by
    unfold jround
    apply Int.floor_lt.mpr
    push_cast
    have h2 : (k : Rat) ≤ (len : Rat) / r - 1/2 := by linarith
    have h3 : (k : Rat) * r ≤ ((len : Rat) / r - 1/2) * r :=
      mul_le_mul_of_nonneg_right h2 (le_of_lt hr0)
    have h4 : ((len : Rat) / r - 1/2) * r = (len : Rat) - r / 2 := by
      field_simp
      ring
    rw [h4] at h3
    linarith
  have hB : jround ((k : Rat) * r) + 1 ≤ jround (((k : Rat) + 1) * r) := by
    have he : ((k : Rat) + 1) * r = (k : Rat) * r + r := by ring
    rw [he]
    exact jround_step _ _ (le_of_lt hr1)
  have hC : 0 ≤ jround ((k : Rat) * r) :=
    jround_nonneg _ (mul_nonneg (by positivity) (le_of_lt hr0))
  unfold windowCount windowHi windowLo
  omega

/-- The downsampling loop computes, from cursor `k` onward, the window
averages of windows `k`, `k+1`, …. -/
theorem dsLoop_eq_map (buffer : List Rat) (r : Rat) :
    ∀ (fuel k : Nat),
      dsLoop buffer r k (windowLo r k) fuel =
        (List.range' k fuel).map (fun j =>
          windowSum buffer r j / (windowCount buffer.length r j : Rat)) := by
  intro fuel
  induction fuel with
  | zero => intro k; rfl
  | succ n ih =>
    intro k
    have hcast : ((k + 1 : Nat) : Rat) = (k : Rat) + 1 := by push_cast; ring
    have hnext : (jround (((k : Rat) + 1) * r)).toNat = windowLo r (k + 1) := by
      unfold windowLo
      rw [hcast]
    simp only [dsLoop]
    rw [List.length_range', hnext, ih (k + 1)]
    rw [show List.range' k (n + 1) = k :: List.range' (k + 1) n from rfl,
      List.map_cons]
    congr 1
    unfold windowSum windowCount windowHi
    rw [hnext]

/-- `downsampleBuffer` in closed form for distinct rates. -/
theorem downsampleBuffer_eq_map (buffer : List Rat) (sinRate soutRate : Nat)
    (hne : soutRate ≠ sinRate) :
    downsampleBuffer buffer sinRate soutRate =
      (List.range' 0 ((jround ((buffer.length : Rat) /
        ((sinRate : Rat) / (soutRate : Rat)))).toNat)).map (fun j =>
          windowSum buffer ((sinRate : Rat) / (soutRate : Rat)) j /
            (windowCount buffer.length ((sinRate : Rat) / (soutRate : Rat)) j :
              Rat)) := by
  unfold downsampleBuffer
  rw [if_neg hne]
  have h0 : windowLo ((sinRate : Rat) / (soutRate : Rat)) 0 = 0 := by
    unfold windowLo
    have hz : jround (((0 : Nat) : Rat) *
        ((sinRate : Rat) / (soutRate : Rat))) = 0 := by
      unfold jround
      have hq : ((0 : Nat) : Rat) * ((sinRate : Rat) / (soutRate : Rat)) +
          1/2 = 1/2 := by
        push_cast
        ring
      rw [hq]
      refine Int.floor_eq_zero_iff.mpr ?_
      constructor <;> norm_num
    rw [hz]
    rfl
  have hmap := dsLoop_eq_map buffer ((sinRate : Rat) / (soutRate : Rat))
    ((jround ((buffer.length : Rat) /
      ((sinRate : Rat) / (soutRate : Rat)))).toNat) 0
  rw [h0] at hmap
  exact hmap

/-- C10: for `sampleRate > outSampleRate > 0` the downsampler is total and
NaN-free: the output length is `round(length * outSampleRate / sampleRate)`,
every output entry is the average of a non-empty source window (the averaging
divisor is never zero), and with equal rates the input buffer is returned
unchanged. -/
theorem c10_downsample_safe (buffer : List Rat) (sinRate soutRate : Nat)
    (h1 : soutRate < sinRate) (h0 : 0 < soutRate) :
    (downsampleBuffer buffer sinRate soutRate).length =
      (jround ((buffer.length : Rat) * (soutRate : Rat) /
        (sinRate : Rat))).toNat ∧
    (∀ k, (hk : k < (downsampleBuffer buffer sinRate soutRate).length) →
      0 < windowCount buffer.length ((sinRate : Rat) / (soutRate : Rat)) k ∧
      (downsampleBuffer buffer sinRate soutRate).get ⟨k, hk⟩ =
        windowSum buffer ((sinRate : Rat) / (soutRate : Rat)) k /
          (windowCount buffer.length ((sinRate : Rat) / (soutRate : Rat)) k :
            Rat)) ∧
    (∀ sr : Nat, downsampleBuffer buffer sr sr = buffer) := by
  have hne : soutRate ≠ sinRate := Nat.ne_of_lt h1
  have hdivEq : (buffer.length : Rat) / ((sinRate : Rat) / (soutRate : Rat)) =
      (buffer.length : Rat) * (soutRate : Rat) / (sinRate : Rat) :=
    div_div_eq_mul_div _ _ _
  have heq := downsampleBuffer_eq_map buffer sinRate soutRate hne
  refine ⟨?_, ?_, ?_⟩
  · rw [heq, List.length_map, List.length_range', hdivEq]
  · intro k hk
    have hklt : k < (jround ((buffer.length : Rat) /
        ((sinRate : Rat) / (soutRate : Rat)))).toNat := by
      have := hk
      rw [heq, List.length_map, List.length_range'] at this
      exact this
    have hkint : (k : Int) + 1 ≤ jround ((buffer.length : Rat) /
        ((sinRate : Rat) / (soutRate : Rat))) := by omega
    refine ⟨windowCount_pos buffer.length sinRate soutRate h1 h0 k hkint, ?_⟩
    rw [List.get_of_eq heq ⟨k, hk⟩, List.get_map]
    have : (List.range' 0 ((jround ((buffer.length : Rat) /
        ((sinRate : Rat) / (soutRate : Rat)))).toNat)).get
        ⟨k, by simpa using hklt⟩ = k := by
      rw [List.get_range']
      omega
    rw [this]
  · intro sr
    unfold downsampleBuffer
    rw [if_pos rfl]

/-- C10 witness: halving a four-sample buffer from rate 4 to rate 2 yields
`round(4 * 2 / 4) = 2` samples. -/
theorem c10_witness :
    (downsampleBuffer [1, 2, 3, 4] 4 2).length =
      (jround ((([1, 2, 3, 4] : List Rat).length : Rat) * ((2 : Nat) : Rat) /
        ((4 : Nat) : Rat))).toNat :=
  (c10_downsample_safe [1, 2, 3, 4] 4 2 (by norm_num) (by norm_num)).1

/-- C6 witness: with an engine that raises exactly for target "fr", the unit
maps "fr" to the untranslated source text while "es" gets its translation, and
every participant still receives a message on every socket. -/
theorem c6_witness :
    ((handleUnit oracleFailFr [] [1, 2] [⟨1, "fr"⟩, ⟨2, "es"⟩] 1 "A" [1]
      ⟨"hi", "en", mkRat 9 10⟩).translationsSaved).lookup "fr" = some "hi" :=
  (c6_translation_failure_fallback oracleFailFr [] [1, 2]
    [⟨1, "fr"⟩, ⟨2, "es"⟩] 1 "A" [1] ⟨"hi", "en", mkRat 9 10⟩
    (by decide) (by decide) (by decide) rfl (by decide)).1
    "fr" (by decide) rfl

end Voxscribe
